import Mathlib

/-!
Shallow embedding of the magnet repository: the argument resolver of
src/magnet/nodes.py (Node._parse_params), the lazy-build state machine and
name handling of src/magnet/nodes/nodes.py (Node.__call__, Node.build,
Node._parse_args, Node.__mul__), the Conv build step of src/magnet/nodes.py
(Conv.build, Conv._set_padding) and the specification normalizer of
src/magnet/_utils.py (to_node), together with theorems settling the spec
claims against these definitions.
-/

/-- Model of a Python float as an exact fraction num / den. Every float
that occurs in the embedded code (0.5 and the quotients 1 / 0.5 = 2.0 and
1 / 1 = 1.0) is exactly representable in binary floating point and every
operation applied to one (reciprocal, is_integer, truncation to int, floor
division) is exact on these values, so an exact fraction with positive
denominator is a faithful model and no rounding needs to be modelled. -/
structure PyFloat where
  num : ℤ
  den : ℤ
deriving DecidableEq

/-- The float method is_integer: whether the value is an integer. -/
def PyFloat.isInt (f : PyFloat) : Bool := f.num % f.den == 0

/-- The Python expression 1 / f on a nonzero float f. -/
def pyRecip (f : PyFloat) : PyFloat := ⟨f.den, f.num⟩

/-- The Python conversion int(f), exact on the integral floats it is
applied to (truncation and floor agree there). -/
def PyFloat.toInt (f : PyFloat) : ℤ := Int.fdiv f.num f.den

/-- Model of the Python values that flow through the argument resolver and
the Conv build step: integers, floats, strings, booleans and the None
object. -/
inductive PyVal where
  | vint (n : ℤ)
  | vfloat (f : PyFloat)
  | vstr (s : String)
  | vbool (b : Bool)
  | vnone
deriving DecidableEq

/-- Model of the exceptions raised on the embedded code paths.
invalidName models the ValueError raised by Node._parse_args in
src/magnet/nodes/nodes.py; its f-string message interpolates the class name
and the offending value, which we keep as structured data. invalidPadding
models the RuntimeError raised by Conv._set_padding in src/magnet/nodes.py
(message: Padding value wont hold for all vector sizes). indexError and
typeError model the corresponding Python builtin exceptions. -/
inductive PyErr where
  | invalidName (className : String) (given : PyVal)
  | invalidPadding
  | indexError
  | typeError
deriving DecidableEq

/-! ### Python dict model

A Python dict is modelled as an association list with unique keys kept in
insertion order. Assignment updates in place when the key is present and
appends otherwise, matching CPython insertion-order semantics. -/

/-- Dict lookup d[k] (returning none when the key is absent). -/
def dget {α : Type} : List (String × α) → String → Option α
  | [], _ => none
  | (k₀, v) :: rest, k => if k₀ = k then some v else dget rest k

/-- Dict assignment d[k] = v: update in place when present, append otherwise. -/
def dset {α : Type} : List (String × α) → String → α → List (String × α)
  | [], k, v => [(k, v)]
  | (k₀, v₀) :: rest, k, v =>
    if k₀ = k then (k₀, v) :: rest else (k₀, v₀) :: dset rest k v

/-- Dict removal d.pop(k): drop the (first) entry with key k. -/
def dpop {α : Type} : List (String × α) → String → List (String × α)
  | [], _ => []
  | (k₀, v₀) :: rest, k => if k₀ = k then rest else (k₀, v₀) :: dpop rest k

/-- Dict merge d.update(u): assign every entry of u into d in order. -/
def dUpdate {α : Type} : List (String × α) → List (String × α) → List (String × α)
  | d, [] => d
  | d, (k, v) :: rest => dUpdate (dset d k v) rest

theorem dget_dset_self {α : Type} (d : List (String × α)) (k : String) (v : α) :
    dget (dset d k v) k = some v := by
  induction d with
  | nil => simp [dget, dset]
  | cons hd tl ih =>
    obtain ⟨k₀, v₀⟩ := hd
    by_cases h : k₀ = k
    · subst h; simp [dget, dset]
    · simp [dget, dset, h, ih]

theorem dget_dset_ne {α : Type} (d : List (String × α)) (k k₂ : String) (v : α)
    (h : k₂ ≠ k) : dget (dset d k v) k₂ = dget d k₂ := by
  induction d with
  | nil =>
    have hne : ¬ k = k₂ := fun hh => h hh.symm
    simp [dget, dset, hne]
  | cons hd tl ih =>
    obtain ⟨k₀, v₀⟩ := hd
    by_cases hk : k₀ = k
    · subst hk
      have hne : ¬ k₀ = k₂ := fun hh => h hh.symm
      simp [dget, dset, hne]
    · simp only [dset, if_neg hk, dget]
      by_cases hk₂ : k₀ = k₂
      · simp [hk₂]
      · simp [hk₂, ih]

theorem dget_isSome_iff_mem {α : Type} (d : List (String × α)) (k : String) :
    (dget d k).isSome ↔ k ∈ d.map Prod.fst := by
  induction d with
  | nil => simp [dget]
  | cons hd tl ih =>
    obtain ⟨k₀, v₀⟩ := hd
    by_cases h : k₀ = k
    · subst h; simp [dget]
    · simp [dget, h, ih, Ne.symm h]

theorem dget_eq_none_iff {α : Type} (d : List (String × α)) (k : String) :
    dget d k = none ↔ k ∉ d.map Prod.fst := by
  rw [← dget_isSome_iff_mem]
  cases dget d k <;> simp

theorem keys_dset_mem {α : Type} (d : List (String × α)) (k : String) (v : α)
    (h : k ∈ d.map Prod.fst) : (dset d k v).map Prod.fst = d.map Prod.fst := by
  induction d with
  | nil => simp at h
  | cons hd tl ih =>
    obtain ⟨k₀, v₀⟩ := hd
    by_cases hk : k₀ = k
    · simp [dset, hk]
    · simp only [List.map_cons, List.mem_cons] at h
      rcases h with h | h

      · exact absurd h.symm hk
      · simp [dset, hk, ih h]

theorem keys_dset_not_mem {α : Type} (d : List (String × α)) (k : String) (v : α)
    (h : k ∉ d.map Prod.fst) : (dset d k v).map Prod.fst = d.map Prod.fst ++ [k] := by
  induction d with
  | nil => simp [dset]
  | cons hd tl ih =>
    obtain ⟨k₀, v₀⟩ := hd
    simp only [List.map_cons, List.mem_cons] at h
    push_neg at h
    have hne : ¬ k₀ = k := fun hh => h.1 hh.symm
    simp [dset, hne, ih h.2]

theorem dget_dpop_ne {α : Type} (d : List (String × α)) (k k₂ : String)
    (h : k₂ ≠ k) : dget (dpop d k) k₂ = dget d k₂ := by
  induction d with
  | nil => simp [dpop]
  | cons hd tl ih =>
    obtain ⟨k₀, v₀⟩ := hd
    by_cases hk : k₀ = k
    · subst hk
      have hne : ¬ k₀ = k₂ := fun hh => h hh.symm
      simp [dpop, dget, hne]
    · simp only [dpop, if_neg hk, dget]
      by_cases hk₂ : k₀ = k₂
      · simp [hk₂]
      · simp [hk₂, ih]

theorem keys_dpop {α : Type} (d : List (String × α)) (k : String) :
    (dpop d k).map Prod.fst = (d.map Prod.fst).erase k := by
  induction d with
  | nil => simp [dpop]
  | cons hd tl ih =>
    obtain ⟨k₀, v₀⟩ := hd
    by_cases hk : k₀ = k
    · subst hk; simp [dpop, List.erase_cons]
    · simp [dpop, hk, List.erase_cons, ih]

/-! ### Argument resolver: Node._parse_params in src/magnet/nodes.py

The constructor signature is Node(*args, **kwargs), so the locals captured
by caller_locals are the dict containing the positional tuple under the key
args and the keyword dict under the key kwargs. The code then binds the
i-th positional value to the i-th Parameter Table key, pops the positional
tuple, applies keyword overrides and table defaults, and pops the keyword
dict. -/

/-- An entry of the captured-locals dict: a plain parameter value, the
positional-arguments tuple bound to the local named args, or the
keyword-arguments dict bound to the local named kwargs. -/
inductive Entry where
  | val (v : PyVal)
  | posTuple (xs : List PyVal)
  | kwDict (d : List (String × PyVal))
deriving DecidableEq

/-- The first loop of Node._parse_params: for i, arg_val in
enumerate(args), bind args[default_param_list[i][0]] = arg_val. Indexing
the table out of range is a Python IndexError, modelled as none. -/
def posLoop (table : List (String × PyVal)) :
    List PyVal → ℕ → List (String × Entry) → Option (List (String × Entry))
  | [], _, d => some d
  | v :: vs, i, d =>
    match table.get? i with
    | some kv => posLoop table vs (i + 1) (dset d kv.1 (.val v))
    | none => none

/-- The second loop of Node._parse_params: for each (param_name, default)
of the table, take the keyword value when param_name is a key of the stored
kwargs dict, otherwise keep an existing binding, otherwise bind the table
default. The loop reads the kwargs dict stored in the locals under the key
kwargs; a non-dict stored there would be a Python AttributeError, modelled
as none. -/
def kwLoop : List (String × PyVal) → List (String × Entry) →
    Option (List (String × Entry))
  | [], d => some d
  | (k, dflt) :: ts, d =>
    match dget d "kwargs" with
    | some (.kwDict kw) =>
      kwLoop ts
        (match dget kw k with
         | some v => dset d k (.val v)
         | none => if (dget d k).isSome then d else dset d k (.val dflt))
    | _ => none

/-- Node._parse_params of src/magnet/nodes.py: starting from the captured
locals dict with entries args (positional tuple) and kwargs (keyword dict),
run the positional loop, pop args, run the keyword/default loop, pop
kwargs, and return the resulting resolved-argument dict. -/
def parseParams (table : List (String × PyVal)) (pos : List PyVal)
    (kw : List (String × PyVal)) : Option (List (String × Entry)) :=
  let args₀ : List (String × Entry) := [("args", .posTuple pos), ("kwargs", .kwDict kw)]
  match posLoop table pos 0 args₀ with
  | none => none
  | some a₁ =>
    match kwLoop table (dpop a₁ "args") with
    | none => none
    | some a₃ => some (dpop a₃ "kwargs")

/-! ### Lazy-build state machine: Node.__call__ and Node.build in
src/magnet/nodes/nodes.py

Node.__call__ runs the build step unless the node is already built AND the
process-wide flag mag.build_lock is true, then delegates to the module
call. Node.build sets the built flag. The node state relevant to the
claims is the built flag alone. -/

/-- One invocation of a node as a callable: returns whether the build step
ran during this invocation, and the built flag afterwards. -/
def callNode (buildLock : Bool) (built : Bool) : Bool × Bool :=
  if ¬ (built && buildLock) then (true, true) else (false, built)

/-- A sequence of n invocations of the node: the list records, per
invocation, whether the build step ran; the second component is the final
built flag. -/
def callTrace (buildLock : Bool) (built : Bool) : ℕ → List Bool × Bool
  | 0 => ([], built)
  | n + 1 =>
    let r := callNode buildLock built
    let rest := callTrace buildLock r.2 n
    (r.1 :: rest.1, rest.2)

/-! ### Name handling: Node._parse_args in src/magnet/nodes/nodes.py

After caller_locals, the code merges the captured kwargs dict into the
locals dict, pops the name key with the class name as default, raises a
ValueError naming the class when that name is None or the empty string, and
stores the rest as the resolved arguments. -/

/-- Result of Node._parse_args: the display name and the resolved-argument
dict stored on the instance. -/
structure ParsedNode where
  name : PyVal
  args : List (String × PyVal)
deriving DecidableEq

/-- Node._parse_args of src/magnet/nodes/nodes.py. captured is the
caller-locals dict minus its kwargs entry (whose value is passed separately
as kwargs); the positional tuple entry of the locals plays no role in name
resolution and its value is modelled like any other captured value. -/
def parseArgs (className : String) (captured : List (String × PyVal))
    (kwargs : List (String × PyVal)) : Except PyErr ParsedNode :=
  let merged := dUpdate captured kwargs
  let name := (dget merged "name").getD (.vstr className)
  if name = .vnone ∨ name = .vstr "" then
    .error (.invalidName className name)
  else
    .ok ⟨name, dpop merged "name"⟩

/-! ### Conv build step: Conv.build and Conv._set_padding in
src/magnet/nodes.py -/

/-- Python sequence indexing xs[i]: a negative index counts from the end
(so shape_dict[-2] is the middle element of a three-element list); an index
out of range on both sides raises IndexError. -/
def pyIndex {α : Type} (xs : List α) (i : ℤ) : Except PyErr α :=
  let j : ℤ := if i < 0 then i + xs.length else i
  if h : 0 ≤ j ∧ j < xs.length then
    .ok (xs.get ⟨j.toNat, by omega⟩)
  else
    .error .indexError

/-- Python floor division v // n for the stored kernel-size value: defined
for ints, bools (which are ints in Python) and floats, a TypeError
otherwise. The result is returned as the integer that int() would produce
on it (for the floor of a division this is the floor itself). -/
def pyFloorDiv (v : PyVal) (n : ℤ) : Except PyErr ℤ :=
  match v with
  | .vint m => .ok (Int.fdiv m n)
  | .vbool b => .ok (Int.fdiv (if b then 1 else 0) n)
  | .vfloat f => .ok (Int.fdiv f.num (f.den * n))
  | _ => .error .typeError

/-- The resolved arguments of a Conv node: the keys of its Parameter Table
c (out channels), k (kernel size), p (padding), s (stride), d (dilation),
g (groups) and b (bias). -/
structure ConvArgs where
  c : PyVal
  k : PyVal
  p : PyVal
  s : PyVal
  d : PyVal
  g : PyVal
  b : PyVal
deriving DecidableEq

/-- Conv._default_params of src/magnet/nodes.py, as a ConvArgs record:
c = None, k = 3, p = half, s = 1, d = 1, g = 1, b = True. -/
def convDefaults : ConvArgs :=
  ⟨.vnone, .vint 3, .vstr "half", .vint 1, .vint 1, .vint 1, .vbool true⟩

/-- Conv._default_params as the ordered Parameter Table read by
Node._parse_params. -/
def convTable : List (String × PyVal) :=
  [("c", .vnone), ("k", .vint 3), ("p", .vstr "half"), ("s", .vint 1),
   ("d", .vint 1), ("g", .vint 1), ("b", .vbool true)]

/-- The head of Conv._set_padding: the multiplier f chosen from the
symbolic padding mode (f = 0.5 for half, f = 1 for same), none when the
padding value is not one of the two symbolic modes (the method then
returns without touching the arguments). -/
def strideMultiplier (p : PyVal) : Option PyFloat :=
  if p = .vstr "half" then some ⟨1, 2⟩
  else if p = .vstr "same" then some ⟨1, 1⟩
  else none

/-- Conv._set_padding of src/magnet/nodes.py, as a state-passing function:
the first component is the normal or exceptional outcome, the second is the
argument record after the call, reflecting exactly the in-place mutations
performed before any exception. With a symbolic mode the code computes
s = 1 / f, raises the bad-padding RuntimeError when s.is_integer() is
false, then assigns d = 1, s = int(s), p = int(k // 2) and, when c is
None, c = s * in_shape[1] (reading back the freshly assigned integer s). -/
def setPadding (args : ConvArgs) (inShape : List ℤ) : Except PyErr Unit × ConvArgs :=
  match strideMultiplier args.p with
  | none => (.ok (), args)
  | some f =>
    let s : PyFloat := pyRecip f
    if ¬ s.isInt then (.error .invalidPadding, args)
    else
      let a₁ : ConvArgs := { args with d := .vint 1 }
      let a₂ : ConvArgs := { a₁ with s := .vint s.toInt }
      match pyFloorDiv a₂.k 2 with
      | .error e => (.error e, a₂)
      | .ok halfk =>
        let a₃ : ConvArgs := { a₂ with p := .vint halfk }
        if a₃.c = .vnone then
          match pyIndex inShape 1 with
          | .error e => (.error e, a₃)
          | .ok ch => (.ok (), { a₃ with c := .vint (s.toInt * ch) })
        else (.ok (), a₃)

/-- The framework convolution module produced by Conv.build, recording the
dimensionality picked from shape_dict and the keyword arguments passed to
the framework constructor under their full names. -/
structure ConvModule where
  dim : ℕ
  in_channels : ℤ
  out_channels : ℤ
  kernel_size : PyVal
  stride : PyVal
  padding : PyVal
  dilation : PyVal
  groups : PyVal
  bias : PyVal
deriving DecidableEq

/-- Modelled from the spec: the external framework (an external
collaborator, out of scope of the repository) constructs the convolution
module from the fully resolved keyword arguments; its constructor needs a
concrete integer out-channel count, so passing None for out_channels fails
with a TypeError before any module exists. Further framework-side argument
validation is not modelled. -/
def mkConvModule (dim : ℕ) (inChannels : ℤ) (a : ConvArgs) : Except PyErr ConvModule :=
  match a.c with
  | .vint c => .ok ⟨dim, inChannels, c, a.k, a.s, a.p, a.d, a.g, a.b⟩
  | _ => .error .typeError

/-- A Conv node: its resolved arguments and, once built, the submodule
assigned to self.conv (none while the node is unbuilt). -/
structure ConvNode where
  args : ConvArgs
  conv : Option ConvModule
deriving DecidableEq

/-- Conv.build of src/magnet/nodes.py, as a state-passing function on the
node: pick the dimensionality from shape_dict = [Conv1d, Conv2d, Conv3d]
at index ndim - 1 with ndim = len(in_shape) - 2, run _set_padding, build
the keyword mapping with in_channels = in_shape[1], construct the framework
module and assign it to self.conv. The returned node reflects exactly the
mutations performed before any exception. -/
def convBuild (node : ConvNode) (inShape : List ℤ) : Except PyErr Unit × ConvNode :=
  let ndim : ℤ := (inShape.length : ℤ) - 2
  match pyIndex [1, 2, 3] (ndim - 1) with
  | .error e => (.error e, node)
  | .ok dim =>
    match setPadding node.args inShape with
    | (.error e, a₂) => (.error e, { node with args := a₂ })
    | (.ok _, a₂) =>
      match pyIndex inShape 1 with
      | .error e => (.error e, { node with args := a₂ })
      | .ok inChannels =>
        match mkConvModule dim inChannels a₂ with
        | .error e => (.error e, { node with args := a₂ })
        | .ok m => (.ok (), { args := a₂, conv := some m })

/-! ### Specification normalizer: to_node in src/magnet/_utils.py -/

/-- A heterogeneous declarative specification accepted by to_node: a
mapping whose first entry names an inner specification (further entries of
a multi-key mapping are never read by the code, which accesses only
list(x.keys())[0] and the value at that key, so only their keys appear),
a sequence standing for a sub-pipeline, a bare function, or an
already-existing node-like object with a class name and an optional name
attribute. -/
inductive NodeSpec where
  | dict (key : String) (inner : NodeSpec) (restKeys : List String)
  | seq (len : ℕ)
  | func (source : String)
  | obj (className : String) (name : Option String)

/-- The node-like object produced by to_node: a class name and the display
name it carries afterwards. -/
structure NodeObj where
  className : String
  name : String
deriving DecidableEq

/-- Modelled from the spec: the Sequential model class (magnet.models) and
the Lambda node class (referenced by to_node but absent from the sources)
are Node subclasses whose constructors default the display name to the
class name, per the Argument Resolver contract of the spec. -/
def frameworkNode (className : String) : NodeObj :=
  ⟨className, className⟩

/-- to_node of src/magnet/_utils.py: a mapping normalizes its first value
and then overwrites that node display name with the mapping key; a
sequence becomes a Sequential model; a function becomes a Lambda node;
anything else is returned as is, given a class-name display name when it
lacks one. -/
def toNode : NodeSpec → NodeObj
  | .dict key inner _ =>
    let node := toNode inner
    { node with name := key }
  | .seq _ => frameworkNode "Sequential"
  | .func _ => frameworkNode "Lambda"
  | .obj className nm => ⟨className, nm.getD className⟩

/-! ### Node replication: Node.__mul__ and Node._mul_int in
src/magnet/nodes/nodes.py -/

/-- A node as seen by the replication operator: its class and its resolved
argument dict. -/
structure MulNode where
  className : String
  args : List (String × PyVal)
deriving DecidableEq

/-- The numeric modifier accepted by Node.__mul__: a Python int or float. -/
inductive PyNum where
  | int (n : ℤ)
  | float (f : PyFloat)
deriving DecidableEq

/-- The expression self.__class__(**self._args): a fresh instance of the
same class constructed with the resolved arguments passed as keyword
arguments. -/
def mkNode (className : String) (kwargs : List (String × PyVal)) : MulNode :=
  ⟨className, kwargs⟩

/-- The list built by Node._mul_int for an integer modifier n:
[self] + [self.__class__(**self._args) for _ in range(n - 1)]. -/
def mulIntBody (node : MulNode) (n : ℤ) : List MulNode :=
  node :: List.replicate (n - 1).toNat (mkNode node.className node.args)

/-- Node.__mul__ of src/magnet/nodes/nodes.py restricted to numeric
modifiers: an int runs _mul_int; a float that is_integer also reaches
_mul_int, where range(n - 1) receives a float and raises TypeError; any
other float falls through both isinstance tests and the method returns
None. -/
def mulNode (node : MulNode) : PyNum → Except PyErr (Option (List MulNode))
  | .int n => .ok (some (mulIntBody node n))
  | .float f => if f.isInt then .error .typeError else .ok none

/-! ### Claims C1 and C3: the lazy-build state machine -/

theorem callTrace_built_locked (n : ℕ) :
    callTrace true true n = (List.replicate n false, true) := by
  induction n with
  | zero => rfl
  | succ m ih => simp [callTrace, callNode, ih, List.replicate]

/-- Claim C1, counterexample. The claim asserts that, with the process-wide
build-lock flag at its unset value (false), the build step runs only on the
first invocation and is skipped on every subsequent one. In the code the
guard is: skip the build step only when the node is built AND the flag is
true, so with the flag false the build step runs again on the second
invocation of an initially unbuilt node: the per-invocation build trace of
two calls is [true, true], not the claimed one build. -/
theorem claim1_counterexample :
    (callTrace false false 2).1 = [true, true] ∧
    (callTrace false false 2).1.count true ≠ 1 := by decide

/-- Claim C1, amended: with the process-wide build-lock flag at its normal,
SET value (true), a node starting unbuilt transitions to built on the first
invocation, the build step runs exactly on that first invocation, and every
one of the n subsequent invocations skips the build step and delegates
directly. -/
theorem claim1_build_exactly_once (n : ℕ) :
    callTrace true false (n + 1) = (true :: List.replicate n false, true) := by
  simp [callTrace, callNode, callTrace_built_locked n]

/-- Claim C3, counterexample. The claim asserts that with the build-lock
flag set, invoking a still-unbuilt node runs no build step and leaves the
built state unmutated, i.e. the invocation outcome would be
(false, false). In the code the guard not(built and lock) is true for an
unbuilt node whatever the flag, so the build step runs and the node
becomes built: the outcome is (true, true). -/
theorem claim3_counterexample :
    callNode true false = (true, true) ∧ callNode true false ≠ (false, false) := by
  decide

/-- Claim C3, amended: when the build-lock flag is set, invoking an
already-built node runs no build step and leaves the built state
unmutated; an unbuilt node still has its build step run on invocation (the
flag only suppresses rebuilds of built nodes, shown by the
counterexample). -/
theorem claim3_locked_built_skips : callNode true true = (false, true) := rfl

/-! ### Claim C7: name validation in Node._parse_args -/

/-- Claim C7: constructing a node with an explicitly supplied name keyword
that is None or the empty string fails with the invalid-name error carrying
the offending class name; constructing without supplying a name never
raises this error and defaults the display name to the class name (Python
class names are nonempty, whence the hypothesis on className). -/
theorem claim7_name_validation (className : String)
    (captured kwargs : List (String × PyVal)) :
    (className ≠ "" → dget (dUpdate captured kwargs) "name" = none →
      parseArgs className captured kwargs =
        .ok ⟨.vstr className, dpop (dUpdate captured kwargs) "name"⟩) ∧
    (∀ v, dget (dUpdate captured kwargs) "name" = some v →
      (v = .vnone ∨ v = .vstr "") →
      parseArgs className captured kwargs = .error (.invalidName className v)) := by
  constructor
  · intro hcls hname
    simp [parseArgs, hname, hcls]
  · intro v hname hv
    rcases hv with h | h <;> subst h <;> simp [parseArgs, hname]

/-- Witness for claim C7: a node of class Linear constructed without a
name resolves to the display name Linear, and a node of class Conv
constructed with an explicit empty-string name fails with the invalid-name
error carrying Conv. -/
theorem claim7_witness :
    parseArgs "Linear" [] [] = .ok ⟨.vstr "Linear", dpop (dUpdate [] []) "name"⟩ ∧
    parseArgs "Conv" [] [("name", .vstr "")] =
      .error (.invalidName "Conv" (.vstr "")) := by
  refine ⟨(claim7_name_validation "Linear" [] []).1 (by decide) rfl, ?_⟩
  exact (claim7_name_validation "Conv" [] [("name", .vstr "")]).2
    (.vstr "") rfl (Or.inr rfl)

/-! ### Claim C9: the mapping key overrides the display name in to_node -/

/-- Claim C9: normalizing a single-key mapping with key block1 yields a
node whose display name is block1, whatever the inner specification and
whatever name its normalization would otherwise carry: the assignment of
the mapping key happens after the recursive normalization and overwrites
its name unconditionally. -/
theorem claim9_dict_key_overrides_name (s : NodeSpec) :
    (toNode (.dict "block1" s [])).name = "block1" := rfl

/-! ### Claim C10: the replication operator -/

/-- Claim C10, counterexample. The claim asserts that node * n returns a
list also when n is a float equal to an integer. In the code such a float
passes the isinstance test and reaches _mul_int, where range(n - 1) is
called on a float and raises TypeError: for the integral float 2.0 the
multiplication raises instead of returning a two-element list. -/
theorem claim10_counterexample :
    PyFloat.isInt ⟨2, 1⟩ = true ∧
    mulNode ⟨"Linear", [("o", .vint 4)]⟩ (.float ⟨2, 1⟩) = .error .typeError :=
  ⟨rfl, rfl⟩

/-- Claim C10, amended: for every node and every INTEGER n with n >= 1,
node * n returns a list of exactly n elements whose first element is the
node itself and whose remaining n - 1 elements are newly constructed
instances of the node class, each constructed with the node resolved
argument mapping passed as keyword arguments; a float modifier equal to an
integer instead raises TypeError (see the counterexample). -/
theorem claim10_mul_int (node : MulNode) (n : ℤ) (h : 1 ≤ n) :
    mulNode node (.int n) =
      .ok (some (node :: List.replicate (n - 1).toNat (mkNode node.className node.args))) ∧
    (mulIntBody node n).length = n.toNat := by
  refine ⟨rfl, ?_⟩
  simp [mulIntBody]
  omega

/-- Witness for claim C10: a Conv-like node times the integer 3 returns
the node followed by two fresh instances constructed from its arguments. -/
theorem claim10_witness :
    mulNode ⟨"Conv", [("k", .vint 3)]⟩ (.int 3) =
      .ok (some (⟨"Conv", [("k", .vint 3)]⟩ ::
        List.replicate ((3 : ℤ) - 1).toNat (mkNode "Conv" [("k", .vint 3)]))) ∧
    (mulIntBody ⟨"Conv", [("k", .vint 3)]⟩ 3).length = (3 : ℤ).toNat :=
  claim10_mul_int ⟨"Conv", [("k", .vint 3)]⟩ 3 (by decide)

/-! ### Helper lemmas on the Conv build step -/

theorem pyFloorDiv_error_eq (v : PyVal) (n : ℤ) (e : PyErr)
    (h : pyFloorDiv v n = .error e) : e = .typeError := by
  cases v <;> simp [pyFloorDiv] at h <;> try exact h.symm

theorem pyIndex_error_eq {α : Type} (xs : List α) (i : ℤ) (e : PyErr)
    (h : pyIndex xs i = .error e) : e = .indexError := by
  simp only [pyIndex] at h
  set j : ℤ := if i < 0 then i + (xs.length : ℤ) else i with hj
  by_cases hcond : 0 ≤ j ∧ j < (xs.length : ℤ)
  · rw [dif_pos hcond] at h
    exact Except.noConfusion h
  · rw [dif_neg hcond] at h
    injection h with h
    exact h.symm

theorem setPadding_nonsymbolic (args : ConvArgs) (inShape : List ℤ)
    (h : strideMultiplier args.p = none) :
    setPadding args inShape = (.ok (), args) := by
  simp [setPadding, h]

theorem setPadding_cnone_cases (args : ConvArgs) (inShape : List ℤ)
    (hc : args.c = .vnone) (hok : (setPadding args inShape).1 = .ok ()) :
    ((setPadding args inShape).2 = args ∧ strideMultiplier args.p = none) ∨
    (∃ f ch, strideMultiplier args.p = some f ∧ pyIndex inShape 1 = .ok ch ∧
      (setPadding args inShape).2.s = .vint (pyRecip f).toInt ∧
      (setPadding args inShape).2.c = .vint ((pyRecip f).toInt * ch)) := by
  cases hm : strideMultiplier args.p with
  | none => exact Or.inl ⟨by simp [setPadding, hm], rfl⟩
  | some f =>
    right
    by_cases hint : (pyRecip f).isInt
    · cases hfd : pyFloorDiv args.k 2 with
      | error e =>
        exfalso
        simp [setPadding, hm, hint, hfd] at hok
      | ok halfk =>
        cases hix : pyIndex inShape 1 with
        | error e =>
          exfalso
          simp [setPadding, hm, hint, hfd, hc, hix] at hok
        | ok ch =>
          refine ⟨f, ch, rfl, rfl, ?_, ?_⟩ <;>
            simp [setPadding, hm, hint, hfd, hc, hix]
    · exfalso
      simp [setPadding, hm, hint] at hok

/-! ### Claim C4: integrality of the symbolic padding multiplier -/

/-- Claim C4: during padding resolution, a symbolic padding mode (one for
which _set_padding picks a multiplier f) whose stride 1 / f is not an
integer fails with the bad-padding error before mutating anything, and
conversely when 1 / f is an integer the bad-padding error is never raised
(the two modes that exist, half with f = 0.5 and same with f = 1, both
have integral 1 / f, so the first half holds vacuously on this code). -/
theorem claim4_padding_integrality (args : ConvArgs) (inShape : List ℤ)
    (f : PyFloat) (hf : strideMultiplier args.p = some f) :
    (¬ (pyRecip f).isInt = true →
      setPadding args inShape = (.error .invalidPadding, args)) ∧
    ((pyRecip f).isInt = true →
      (setPadding args inShape).1 ≠ .error .invalidPadding) := by
  constructor
  · intro h
    simp [setPadding, hf, h]
  · intro h
    cases hfd : pyFloorDiv args.k 2 with
    | error e =>
      have he := pyFloorDiv_error_eq _ _ _ hfd
      subst he
      simp [setPadding, hf, h, hfd]
    | ok halfk =>
      by_cases hc : args.c = .vnone
      · cases hix : pyIndex inShape 1 with
        | error e =>
          have he := pyIndex_error_eq _ _ _ hix
          subst he
          simp [setPadding, hf, h, hfd, hc, hix]
        | ok ch => simp [setPadding, hf, h, hfd, hc, hix]
      · simp [setPadding, hf, h, hfd, hc]

/-- Witness for claim C4: with the default arguments (mode half, whose
multiplier 0.5 has integral reciprocal 2.0) padding resolution never
raises the bad-padding error. -/
theorem claim4_witness :
    (setPadding convDefaults [1, 4, 8]).1 ≠ .error .invalidPadding :=
  (claim4_padding_integrality convDefaults [1, 4, 8] ⟨1, 2⟩ rfl).2 rfl

/-! ### Claim C5: resolution of the half and same padding modes -/

/-- Claim C5: for a Conv node whose resolved padding parameter is the
symbolic mode half with kernel size 3, the build padding-resolution step
succeeds and resolves the stride to 2, the padding to 3 // 2 = 1 and the
dilation to 1; for the symbolic mode same it resolves the stride to 1.
When the out-channel parameter is None the resolution reads the channel
count in_shape[1], whence the index hypothesis; for mode same, success is
stated under an integer kernel size, while the stride assignment itself is
unconditional because it is performed before the kernel-size division. -/
theorem claim5_padding_modes (args : ConvArgs) (inShape : List ℤ) :
    (args.p = .vstr "half" → args.k = .vint 3 →
      (args.c = .vnone → ∃ ch, pyIndex inShape 1 = .ok ch) →
      (setPadding args inShape).1 = .ok () ∧
      (setPadding args inShape).2.s = .vint 2 ∧
      (setPadding args inShape).2.p = .vint 1 ∧
      (setPadding args inShape).2.d = .vint 1) ∧
    (args.p = .vstr "same" →
      (setPadding args inShape).2.s = .vint 1 ∧
      ((∃ n, args.k = .vint n) →
        (args.c = .vnone → ∃ ch, pyIndex inShape 1 = .ok ch) →
        (setPadding args inShape).1 = .ok ())) := by
  constructor
  · intro hp hk hch
    have hm : strideMultiplier args.p = some ⟨1, 2⟩ := by rw [hp]; rfl
    have hint : (pyRecip ⟨1, 2⟩).isInt = true := rfl
    have ht : (pyRecip ⟨1, 2⟩).toInt = 2 := rfl
    have hfd : pyFloorDiv args.k 2 = .ok 1 := by rw [hk]; rfl
    by_cases hc : args.c = .vnone
    · obtain ⟨ch, hch₂⟩ := hch hc
      refine ⟨?_, ?_, ?_, ?_⟩ <;> simp [setPadding, hm, hint, hfd, hc, hch₂, ht]
    · refine ⟨?_, ?_, ?_, ?_⟩ <;> simp [setPadding, hm, hint, hfd, hc, ht]
  · intro hp
    have hm : strideMultiplier args.p = some ⟨1, 1⟩ := by rw [hp]; rfl
    have hint : (pyRecip ⟨1, 1⟩).isInt = true := rfl
    have ht : (pyRecip ⟨1, 1⟩).toInt = 1 := rfl
    constructor
    · cases hfd : pyFloorDiv args.k 2 with
      | error e => simp [setPadding, hm, hint, hfd, ht]
      | ok halfk =>
        by_cases hc : args.c = .vnone
        · cases hix : pyIndex inShape 1 with
          | error e => simp [setPadding, hm, hint, hfd, hc, hix, ht]
          | ok ch => simp [setPadding, hm, hint, hfd, hc, hix, ht]
        · simp [setPadding, hm, hint, hfd, hc, ht]
    · rintro ⟨n, hk⟩ hch
      have hfd : pyFloorDiv args.k 2 = .ok (Int.fdiv n 2) := by rw [hk]; rfl
      by_cases hc : args.c = .vnone
      · obtain ⟨ch, hch₂⟩ := hch hc
        simp [setPadding, hm, hint, hfd, hc, hch₂]
      · simp [setPadding, hm, hint, hfd, hc]

/-- Witness for claim C5: with the default Conv arguments (mode half,
kernel size 3) on the shape [1, 4, 8] the resolution succeeds with stride
2, padding 1 and dilation 1, and with mode same it resolves stride 1. -/
theorem claim5_witness :
    (setPadding convDefaults [1, 4, 8]).1 = .ok () ∧
    (setPadding convDefaults [1, 4, 8]).2.s = .vint 2 ∧
    (setPadding convDefaults [1, 4, 8]).2.p = .vint 1 ∧
    (setPadding convDefaults [1, 4, 8]).2.d = .vint 1 ∧
    (setPadding { convDefaults with p := .vstr "same" } [1, 4, 8]).2.s = .vint 1 := by
  have h₁ := (claim5_padding_modes convDefaults [1, 4, 8]).1 rfl rfl (fun _ => ⟨4, rfl⟩)
  have h₂ := (claim5_padding_modes { convDefaults with p := .vstr "same" } [1, 4, 8]).2 rfl
  exact ⟨h₁.1, h₁.2.1, h₁.2.2.1, h₁.2.2.2, h₂.1⟩

/-! ### Claim C6: default of the out-channel count -/

/-- Claim C6: for every Conv node successfully built on an input shape, if
the out-channel parameter was None at construction then after the build
step the out-channel count of the constructed module (equally the resolved
out-channel argument) equals the resolved stride times the channel count
in_shape[1] of the input. -/
theorem claim6_default_out_channels (node : ConvNode) (inShape : List ℤ)
    (res : ConvNode) (hc : node.args.c = .vnone)
    (hbuild : convBuild node inShape = (.ok (), res)) :
    ∃ m sv ch, res.conv = some m ∧ res.args.s = .vint sv ∧
      pyIndex inShape 1 = .ok ch ∧ m.out_channels = sv * ch ∧
      res.args.c = .vint (sv * ch) := by
  simp only [convBuild] at hbuild
  cases hdim : pyIndex [1, 2, 3] (((inShape.length : ℤ) - 2) - 1) with
  | error e => simp only [hdim] at hbuild; exact absurd hbuild (by simp)
  | ok dim =>
    simp only [hdim] at hbuild
    cases hsp : setPadding node.args inShape with
    | mk r a₂ =>
      simp only [hsp] at hbuild
      cases r with
      | error e => exact absurd hbuild (by simp)
      | ok u =>
        cases hix : pyIndex inShape 1 with
        | error e => simp only [hix] at hbuild; exact absurd hbuild (by simp)
        | ok inChannels =>
          simp only [hix] at hbuild
          cases hmk : mkConvModule dim inChannels a₂ with
          | error e => simp only [hmk] at hbuild; exact absurd hbuild (by simp)
          | ok m =>
            simp only [hmk] at hbuild
            have hres : res = ⟨a₂, some m⟩ := by
              have := (Prod.mk.injEq _ _ _ _).mp hbuild
              exact this.2.symm
            have hok : (setPadding node.args inShape).1 = .ok () := by rw [hsp]
            have ha₂ : (setPadding node.args inShape).2 = a₂ := by rw [hsp]
            rcases setPadding_cnone_cases node.args inShape hc hok with
              ⟨heq, _⟩ | ⟨f, ch, _, hch, hs, hcv⟩
            · exfalso
              rw [ha₂] at heq
              have hca : a₂.c = .vnone := by rw [heq]; exact hc
              simp [mkConvModule, hca] at hmk
            · rw [ha₂] at hs hcv
              have hmval : m = ⟨dim, inChannels, (pyRecip f).toInt * ch,
                  a₂.k, a₂.s, a₂.p, a₂.d, a₂.g, a₂.b⟩ := by
                unfold mkConvModule at hmk
                rw [hcv] at hmk
                injection hmk with hmk
                exact hmk.symm
              refine ⟨m, (pyRecip f).toInt, ch, ?_, ?_, hix.symm.trans hch, ?_, ?_⟩
              · rw [hres]
              · rw [hres]; exact hs
              · rw [hmval]
              · rw [hres]; exact hcv

/-- Witness for claim C6: building a default Conv node (out channels None,
mode half) on the shape [1, 5, 8] produces a module and resolves the
out-channel argument to stride 2 times 5 channels = 10. -/
theorem claim6_witness :
    (convBuild ⟨convDefaults, none⟩ [1, 5, 8]).2.conv.isSome = true ∧
    (convBuild ⟨convDefaults, none⟩ [1, 5, 8]).2.args.c = .vint 10 ∧
    (convBuild ⟨convDefaults, none⟩ [1, 5, 8]).2.args.s = .vint 2 := by
  obtain ⟨m, sv, ch, hm, hs, hch, hout, hcv⟩ :=
    claim6_default_out_channels ⟨convDefaults, none⟩ [1, 5, 8]
      ((convBuild ⟨convDefaults, none⟩ [1, 5, 8]).2) rfl rfl
  refine ⟨?_, by rfl, by rfl⟩
  rw [hm]
  rfl

/-! ### Claim C8: atomicity of build failure -/

/-- Claim C8, counterexample. The claim asserts that every failing build
raises before the resolved-argument mapping is mutated. Building a default
Conv node (mode half, out channels None) on the one-element shape [4]
picks Conv2d via the negative index -2 into shape_dict, then fails inside
the padding resolution when reading in_shape[1] — but only after d, s and
p have already been assigned: the build raises IndexError and the
arguments are left mutated (s is now 2, p is now 1). -/
theorem claim8_counterexample :
    (convBuild ⟨convDefaults, none⟩ [4]).1 = .error .indexError ∧
    (convBuild ⟨convDefaults, none⟩ [4]).2.args ≠ convDefaults ∧
    (convBuild ⟨convDefaults, none⟩ [4]).2.args.s = .vint 2 := by
  refine ⟨rfl, ?_, rfl⟩
  decide

/-- Claim C8, amended: build failure never assigns a submodule — whenever
the build step raises, the error is surfaced synchronously and the node
submodule slot is unchanged (in particular a node that was unbuilt remains
unbuilt); moreover, whenever the failure happens with a non-symbolic
padding parameter (so the padding resolution performs no mutation), the
resolved-argument mapping is also left intact. A failure occurring after
symbolic padding resolution has begun can leave the arguments partially
updated, as the counterexample shows. -/
theorem claim8_failure_no_submodule (node : ConvNode) (inShape : List ℤ)
    (e : PyErr) (herr : (convBuild node inShape).1 = .error e) :
    (convBuild node inShape).2.conv = node.conv ∧
    (strideMultiplier node.args.p = none → (convBuild node inShape).2 = node) := by
  cases hdim : pyIndex [1, 2, 3] (((inShape.length : ℤ) - 2) - 1) with
  | error edim =>
    constructor
    · simp [convBuild, hdim]
    · intro hmul; simp [convBuild, hdim]
  | ok dim =>
    cases hsp : setPadding node.args inShape with
    | mk r a₂ =>
      cases r with
      | error esp =>
        constructor
        · simp [convBuild, hdim, hsp]
        · intro hmul
          exfalso
          have hnm := setPadding_nonsymbolic node.args inShape hmul
          rw [hnm] at hsp
          exact Except.noConfusion ((Prod.mk.injEq _ _ _ _).mp hsp.symm).1
      | ok u =>
        have hargs : strideMultiplier node.args.p = none → a₂ = node.args := by
          intro hmul
          have hnm := setPadding_nonsymbolic node.args inShape hmul
          rw [hnm] at hsp
          exact ((Prod.mk.injEq _ _ _ _).mp hsp.symm).2
        cases hix : pyIndex inShape 1 with
        | error eix =>
          constructor
          · simp [convBuild, hdim, hsp, hix]
          · intro hmul
            have ha := hargs hmul
            simp [convBuild, hdim, hsp, hix, ha]
        | ok inChannels =>
          cases hmk : mkConvModule dim inChannels a₂ with
          | error emk =>
            constructor
            · simp [convBuild, hdim, hsp, hix, hmk]
            · intro hmul
              have ha := hargs hmul
              rw [ha] at hmk
              simp [convBuild, hdim, hsp, hix, hmk, ha]
          | ok m =>
            exfalso
            simp [convBuild, hdim, hsp, hix, hmk] at herr

/-- Witness for claim C8: a Conv node with the non-symbolic padding value
0 and out channels None fails (the framework rejects a None out-channel
count) and is left fully intact: no submodule is assigned and the
arguments are unchanged. -/
theorem claim8_witness :
    (convBuild ⟨⟨.vnone, .vint 3, .vint 0, .vint 1, .vint 1, .vint 1, .vbool true⟩, none⟩
        [1, 1, 8]).2.conv = none ∧
    (convBuild ⟨⟨.vnone, .vint 3, .vint 0, .vint 1, .vint 1, .vint 1, .vbool true⟩, none⟩
        [1, 1, 8]).2 =
      ⟨⟨.vnone, .vint 3, .vint 0, .vint 1, .vint 1, .vint 1, .vbool true⟩, none⟩ := by
  have h := claim8_failure_no_submodule
    ⟨⟨.vnone, .vint 3, .vint 0, .vint 1, .vint 1, .vint 1, .vbool true⟩, none⟩
    [1, 1, 8] .typeError rfl
  exact ⟨h.1, h.2 rfl⟩

/-! ### Characterization of the two resolver loops, towards claim C2 -/

theorem posLoop_spec (table : List (String × PyVal))
    (hnd : (table.map Prod.fst).Nodup) :
    ∀ (pos : List PyVal) (i : ℕ) (d : List (String × Entry)),
    i + pos.length ≤ table.length →
    (∀ j kv, i ≤ j → table.get? j = some kv → kv.1 ∉ d.map Prod.fst) →
    ∃ d₂, posLoop table pos i d = some d₂ ∧
      d₂.map Prod.fst =
        d.map Prod.fst ++ ((table.drop i).take pos.length).map Prod.fst ∧
      (∀ k, k ∉ ((table.drop i).take pos.length).map Prod.fst →
        dget d₂ k = dget d k) ∧
      (∀ j v kv, pos.get? j = some v → table.get? (i + j) = some kv →
        dget d₂ kv.1 = some (.val v)) := by
  intro pos
  induction pos with
  | nil =>
    intro i d _ _
    refine ⟨d, rfl, by simp, fun k _ => rfl, fun j v kv hj _ => ?_⟩
    simp at hj
  | cons v vs ih =>
    intro i d hlen hfresh
    have hi : i < table.length := by simp at hlen; omega
    have hkv₀ : table.get? i = some (table.get ⟨i, hi⟩) := List.get?_eq_get hi
    set kv₀ := table.get ⟨i, hi⟩ with hkv₀def
    have hfresh₀ : kv₀.1 ∉ d.map Prod.fst := hfresh i kv₀ (le_refl i) hkv₀
    have hdrop : table.drop i = kv₀ :: table.drop (i + 1) := List.drop_eq_get_cons hi
    have htake : (table.drop i).take (v :: vs).length =
        kv₀ :: (table.drop (i + 1)).take vs.length := by
      rw [hdrop]
      rfl
    have hhead_not_tail : kv₀.1 ∉ ((table.drop (i + 1)).take vs.length).map Prod.fst := by
      intro hmem
      have h₂ : ((table.map Prod.fst).drop i).Nodup :=
        (List.drop_sublist i (table.map Prod.fst)).nodup hnd
      have h₁ : (table.map Prod.fst).drop i =
          kv₀.1 :: (table.map Prod.fst).drop (i + 1) := by
        rw [← List.map_drop, hdrop, List.map_cons, List.map_drop]
      rw [h₁] at h₂
      have h₃ : kv₀.1 ∉ (table.map Prod.fst).drop (i + 1) := (List.nodup_cons.mp h₂).1
      rw [List.map_take] at hmem
      have h₄ := List.take_subset vs.length ((table.drop (i + 1)).map Prod.fst) hmem
      rw [List.map_drop] at h₄
      exact h₃ h₄
    obtain ⟨d₂, hrun, hkeys, hpres, hbind⟩ :=
      ih (i + 1) (dset d kv₀.1 (.val v)) (by simp at hlen ⊢; omega)
        (by
          intro j kv hj hget
          have hne : kv.1 ≠ kv₀.1 := by
            intro heq
            have hji : (table.map Prod.fst).get? j = some kv.1 := by
              rw [List.get?_map, hget]; rfl
            have hii : (table.map Prod.fst).get? i = some kv₀.1 := by
              rw [List.get?_map, hkv₀]; rfl
            have hj_lt : j < (table.map Prod.fst).length := by
              obtain ⟨h, _⟩ := List.get?_eq_some.mp hji
              exact h
            have heqij : j = i := List.get?_inj hj_lt hnd (by rw [hji, hii, heq])
            omega
          rw [keys_dset_not_mem d kv₀.1 (.val v) hfresh₀]
          simp only [List.mem_append, List.mem_singleton]
          rintro (h | h)
          · exact hfresh j kv (by omega) hget h
          · exact hne h)
    refine ⟨d₂, ?_, ?_, ?_, ?_⟩
    · simp only [posLoop, hkv₀]
      exact hrun
    · rw [hkeys, keys_dset_not_mem d kv₀.1 (.val v) hfresh₀, htake]
      simp [List.append_assoc]
    · intro k hk
      rw [htake] at hk
      simp only [List.map_cons, List.mem_cons] at hk
      push_neg at hk
      rw [hpres k hk.2]
      exact dget_dset_ne d kv₀.1 k (.val v) hk.1
    · intro j w kv hpos hget
      cases j with
      | zero =>
        rw [Nat.add_zero] at hget
        rw [hget] at hkv₀
        injection hkv₀ with hkv
        have hw : v = w := by simpa using hpos
        rw [hkv, ← hw]
        rw [hpres kv₀.1 hhead_not_tail]
        exact dget_dset_self d kv₀.1 (.val v)
      | succ j₀ =>
        have hget₂ : table.get? (i + 1 + j₀) = some kv := by
          rw [← hget]; congr 1; omega
        exact hbind j₀ w kv (by simpa using hpos) hget₂

theorem kwLoop_spec :
    ∀ (ts : List (String × PyVal)) (d : List (String × Entry))
      (kw : List (String × PyVal)),
    (ts.map Prod.fst).Nodup →
    "kwargs" ∉ ts.map Prod.fst →
    dget d "kwargs" = some (.kwDict kw) →
    ∃ d₂, kwLoop ts d = some d₂ ∧
      d₂.map Prod.fst = d.map Prod.fst ++
        (ts.map Prod.fst).filter (fun k₂ => decide (k₂ ∉ d.map Prod.fst)) ∧
      (∀ k₂, k₂ ∉ ts.map Prod.fst → dget d₂ k₂ = dget d k₂) ∧
      (∀ kv, kv ∈ ts → dget d₂ kv.1 = some (
        match dget kw kv.1 with
        | some v => .val v
        | none =>
          match dget d kv.1 with
          | some e => e
          | none => .val kv.2)) := by
  intro ts
  induction ts with
  | nil =>
    intro d kw _ _ _
    exact ⟨d, rfl, by simp, fun _ _ => rfl, by simp⟩
  | cons hd ts ih =>
    obtain ⟨k, dflt⟩ := hd
    intro d kw hnd hkw hkwd
    have hnd' : (ts.map Prod.fst).Nodup := (List.nodup_cons.mp (by simpa using hnd)).2
    have hkts : k ∉ ts.map Prod.fst := (List.nodup_cons.mp (by simpa using hnd)).1
    have hkwne : "kwargs" ≠ k := by
      intro h
      exact hkw (by simp [h])
    have hkwts : "kwargs" ∉ ts.map Prod.fst := by
      intro h
      exact hkw (by simp [h])
    obtain ⟨d₁, hstep, hkw₁, hv₁, hp₁, hk₁⟩ :
        ∃ d₁, kwLoop ((k, dflt) :: ts) d = kwLoop ts d₁ ∧
          dget d₁ "kwargs" = some (.kwDict kw) ∧
          dget d₁ k = some (match dget kw k with
            | some v => .val v
            | none => match dget d k with | some e => e | none => .val dflt) ∧
          (∀ k₂, k₂ ≠ k → dget d₁ k₂ = dget d k₂) ∧
          d₁.map Prod.fst = d.map Prod.fst ++
            (if k ∈ d.map Prod.fst then [] else [k]) := by
      cases hkwk : dget kw k with
      | some v =>
        refine ⟨dset d k (.val v), ?_, ?_, ?_, ?_, ?_⟩
        · simp [kwLoop, hkwd, hkwk]
        · rw [dget_dset_ne d k "kwargs" (.val v) hkwne]
          exact hkwd
        · simp [hkwk, dget_dset_self]
        · intro k₂ hne
          exact dget_dset_ne d k k₂ (.val v) hne
        · by_cases hmem : k ∈ d.map Prod.fst
          · simp [hmem, keys_dset_mem d k (Entry.val v) hmem]
          · simp [hmem, keys_dset_not_mem d k (Entry.val v) hmem]
      | none =>
        cases hdk : dget d k with
        | some e =>
          have hs : (dget d k).isSome = true := by rw [hdk]; rfl
          have hmem : k ∈ d.map Prod.fst := (dget_isSome_iff_mem d k).mp (by rw [hs])
          refine ⟨d, ?_, hkwd, ?_, fun _ _ => rfl, ?_⟩
          · simp [kwLoop, hkwd, hkwk, hs]
          · simp [hkwk, hdk]
          · simp [hmem]
        | none =>
          have hs : (dget d k).isSome = false := by rw [hdk]; rfl
          have hmem : k ∉ d.map Prod.fst := (dget_eq_none_iff d k).mp hdk
          refine ⟨dset d k (.val dflt), ?_, ?_, ?_, ?_, ?_⟩
          · simp [kwLoop, hkwd, hkwk, hs]
          · rw [dget_dset_ne d k "kwargs" (.val dflt) hkwne]
            exact hkwd
          · simp [hkwk, hdk, dget_dset_self]
          · intro k₂ hne
            exact dget_dset_ne d k k₂ (.val dflt) hne
          · simp [hmem, keys_dset_not_mem d k (Entry.val dflt) hmem]
    obtain ⟨d₂, hrun, hkeys, hpres, hvals⟩ := ih d₁ kw hnd' hkwts hkw₁
    refine ⟨d₂, ?_, ?_, ?_, ?_⟩
    · rw [hstep]
      exact hrun
    · rw [hkeys, hk₁]
      by_cases hmem : k ∈ d.map Prod.fst
      · have hfc : (ts.map Prod.fst).filter
            (fun k₂ => decide (k₂ ∉ (d.map Prod.fst ++ (if k ∈ d.map Prod.fst then [] else [k])))) =
            (ts.map Prod.fst).filter (fun k₂ => decide (k₂ ∉ d.map Prod.fst)) := by
          apply List.filter_congr
          intro a _
          simp [hmem]
        rw [hfc]
        simp [hmem, List.filter_cons]
      · have hfc : (ts.map Prod.fst).filter
            (fun k₂ => decide (k₂ ∉ (d.map Prod.fst ++ (if k ∈ d.map Prod.fst then [] else [k])))) =
            (ts.map Prod.fst).filter (fun k₂ => decide (k₂ ∉ d.map Prod.fst)) := by
          apply List.filter_congr
          intro a ha
          have hak : a ≠ k := fun h => hkts (h ▸ ha)
          simp [hmem, hak]
        rw [hfc]
        simp [hmem, List.filter_cons, List.append_assoc]
    · intro k₂ hk₂
      simp only [List.map_cons, List.mem_cons] at hk₂
      push_neg at hk₂
      rw [hpres k₂ hk₂.2]
      exact hp₁ k₂ hk₂.1
    · rintro ⟨k₂, dflt₂⟩ hmem
      rcases List.mem_cons.mp hmem with heq | hmem'
      · obtain ⟨hek, hed⟩ := Prod.mk.injEq .. |>.mp heq
        subst hek hed
        rw [hpres k₂ hkts]
        exact hv₁
      · have hne : k₂ ≠ k := by
          intro h
          exact hkts (h ▸ (List.mem_map_of_mem Prod.fst hmem'))
        have := hvals ⟨k₂, dflt₂⟩ hmem'
        rw [hp₁ k₂ hne] at this
        exact this

theorem filter_not_mem_take (K : List String) (hnd : K.Nodup) :
    ∀ m : ℕ, K.filter (fun k => decide (k ∉ K.take m)) = K.drop m := by
  induction K with
  | nil => intro m; simp
  | cons a K₂ ih =>
    intro m
    have hnc := List.nodup_cons.mp hnd
    cases m with
    | zero => simp
    | succ m₂ =>
      show (a :: K₂).filter (fun k => decide (k ∉ (a :: K₂.take m₂))) = K₂.drop m₂
      rw [List.filter_cons]
      have hpa : (decide (a ∉ (a :: K₂.take m₂))) = false := by simp
      rw [hpa]
      simp only [Bool.false_eq_true, if_false]
      have hcong : ∀ k ∈ K₂,
          (decide (k ∉ (a :: K₂.take m₂))) = (decide (k ∉ K₂.take m₂)) := by
        intro k hk
        have hka : k ≠ a := fun h => hnc.1 (h ▸ hk)
        simp [hka]
      rw [List.filter_congr hcong]
      exact ih hnc.2 m₂

/-! ### Claim C2: the argument resolver -/

/-- Claim C2: for every Parameter Table (a dict, so with distinct keys,
and with keys distinct from the reserved frame locals args and kwargs) and
every positional/keyword combination consistent with it (at most as many
positional values as table entries), resolution succeeds and binds every
table key exactly once — the keys of the resolved mapping are exactly the
table keys, each once and in table order — where the i-th table key gets
the keyword value when the key is in the keyword dict, else the i-th
positional value when i is within the positional tuple, else the table
default. -/
theorem claim2_parse_params_resolution (table : List (String × PyVal))
    (pos : List PyVal) (kw : List (String × PyVal))
    (hnd : (table.map Prod.fst).Nodup)
    (hargs : "args" ∉ table.map Prod.fst)
    (hkwargs : "kwargs" ∉ table.map Prod.fst)
    (hlen : pos.length ≤ table.length) :
    ∃ d, parseParams table pos kw = some d ∧
      d.map Prod.fst = table.map Prod.fst ∧
      (∀ i kv, table.get? i = some kv →
        dget d kv.1 = some (.val (
          match dget kw kv.1 with
          | some v => v
          | none =>
            match pos.get? i with
            | some pv => pv
            | none => kv.2))) := by
  have hfresh : ∀ j kv, 0 ≤ j → table.get? j = some kv →
      kv.1 ∉ (([("args", Entry.posTuple pos), ("kwargs", Entry.kwDict kw)] :
        List (String × Entry)).map Prod.fst) := by
    intro j kv _ hget hin
    have hmem : kv.1 ∈ table.map Prod.fst :=
      List.mem_map_of_mem Prod.fst (List.get?_mem hget)
    simp only [List.map_cons, List.map_nil, List.mem_cons, List.not_mem_nil,
      or_false] at hin
    rcases hin with h | h
    · exact hargs (h ▸ hmem)
    · exact hkwargs (h ▸ hmem)
  obtain ⟨d₁, hrun₁, hkeys₁, hpres₁, hbind₁⟩ :=
    posLoop_spec table hnd pos 0
      [("args", Entry.posTuple pos), ("kwargs", Entry.kwDict kw)]
      (by omega) hfresh
  rw [List.drop_zero] at hkeys₁ hpres₁
  have hkeysA : d₁.map Prod.fst =
      "args" :: "kwargs" :: (table.take pos.length).map Prod.fst := by
    rw [hkeys₁]
    rfl
  have hTsub : ∀ x, x ∈ (table.take pos.length).map Prod.fst →
      x ∈ table.map Prod.fst := by
    intro x hx
    rw [List.map_take] at hx
    exact List.take_subset _ _ hx
  have hkeysB : (dpop d₁ "args").map Prod.fst =
      "kwargs" :: (table.take pos.length).map Prod.fst := by
    rw [keys_dpop, hkeysA]
    rfl
  have hkwB : dget (dpop d₁ "args") "kwargs" = some (.kwDict kw) := by
    rw [dget_dpop_ne d₁ "args" "kwargs" (by decide)]
    rw [hpres₁ "kwargs" (fun h => hkwargs (hTsub _ h))]
    rfl
  obtain ⟨d₃, hrun₃, hkeys₃, hpres₃, hvals₃⟩ :=
    kwLoop_spec table (dpop d₁ "args") kw hnd hkwargs hkwB
  refine ⟨dpop d₃ "kwargs", ?_, ?_, ?_⟩
  · simp only [parseParams, hrun₁, hrun₃]
  · rw [keys_dpop, hkeys₃, hkeysB]
    have hfc : (table.map Prod.fst).filter
        (fun k₂ => decide (k₂ ∉ ("kwargs" :: (table.take pos.length).map Prod.fst))) =
        (table.map Prod.fst).filter
          (fun k₂ => decide (k₂ ∉ (table.take pos.length).map Prod.fst)) := by
      apply List.filter_congr
      intro a ha
      have hane : a ≠ "kwargs" := fun h => hkwargs (h ▸ ha)
      simp [hane]
    rw [hfc, List.map_take, filter_not_mem_take (table.map Prod.fst) hnd pos.length]
    rw [List.cons_append, List.erase_cons_head]
    exact List.take_append_drop pos.length (table.map Prod.fst)
  · intro i kv hget
    have hkvmem : kv ∈ table := List.get?_mem hget
    have hkmem : kv.1 ∈ table.map Prod.fst := List.mem_map_of_mem Prod.fst hkvmem
    have hkargs : kv.1 ≠ "args" := fun h => hargs (h ▸ hkmem)
    have hkkwargs : kv.1 ≠ "kwargs" := fun h => hkwargs (h ▸ hkmem)
    rw [dget_dpop_ne d₃ "kwargs" kv.1 hkkwargs]
    rw [hvals₃ kv hkvmem]
    have hstep : dget (dpop d₁ "args") kv.1 = dget d₁ kv.1 :=
      dget_dpop_ne d₁ "args" kv.1 hkargs
    by_cases hip : i < pos.length
    · have hpv : pos.get? i = some (pos.get ⟨i, hip⟩) := List.get?_eq_get hip
      have hbind := hbind₁ i (pos.get ⟨i, hip⟩) kv hpv (by simpa using hget)
      cases hkwv : dget kw kv.1 with
      | some v => rfl
      | none =>
        rw [hstep, hbind, hpv]
    · have hpos_none : pos.get? i = none := List.get?_eq_none.mpr (by omega)
      have hnotT : kv.1 ∉ (table.take pos.length).map Prod.fst := by
        intro hmem
        rw [List.map_take] at hmem
        have hKi : (table.map Prod.fst).get? i = some kv.1 := by
          rw [List.get?_map, hget]
          rfl
        have hidrop : kv.1 ∈ (table.map Prod.fst).drop pos.length := by
          have hdg : ((table.map Prod.fst).drop pos.length).get? (i - pos.length) =
              some kv.1 := by
            rw [List.get?_drop, ← hKi]
            congr 1
            omega
          exact List.get?_mem hdg
        have hsplit := List.take_append_drop pos.length (table.map Prod.fst)
        have hnd₂ : ((table.map Prod.fst).take pos.length ++
            (table.map Prod.fst).drop pos.length).Nodup := by
          rw [hsplit]
          exact hnd
        exact (List.nodup_append.mp hnd₂).2.2 hmem hidrop
      have hd₁v : dget d₁ kv.1 =
          dget [("args", Entry.posTuple pos), ("kwargs", Entry.kwDict kw)] kv.1 :=
        hpres₁ kv.1 hnotT
      have hargs₀v : dget
          ([("args", Entry.posTuple pos), ("kwargs", Entry.kwDict kw)] :
            List (String × Entry)) kv.1 = none := by
        have h₁ : ¬ ("args" = kv.1) := fun h => hkargs h.symm
        have h₂ : ¬ ("kwargs" = kv.1) := fun h => hkkwargs h.symm
        simp [dget, h₁, h₂]
      cases hkwv : dget kw kv.1 with
      | some v => rfl
      | none =>
        rw [hstep, hd₁v, hargs₀v, hpos_none]

/-- Witness for claim C2: resolving the Conv Parameter Table against the
call Conv(8, s = 2) binds exactly the table keys in order, with c bound
positionally to 8, s overridden by the keyword to 2, and k left at its
default 3. -/
theorem claim2_witness :
    (parseParams convTable [.vint 8] [("s", .vint 2)]).map (List.map Prod.fst) =
      some ["c", "k", "p", "s", "d", "g", "b"] ∧
    (parseParams convTable [.vint 8] [("s", .vint 2)]).map (fun d => dget d "c") =
      some (some (.val (.vint 8))) ∧
    (parseParams convTable [.vint 8] [("s", .vint 2)]).map (fun d => dget d "s") =
      some (some (.val (.vint 2))) ∧
    (parseParams convTable [.vint 8] [("s", .vint 2)]).map (fun d => dget d "k") =
      some (some (.val (.vint 3))) := by
  obtain ⟨d, hd, hkeys, hvals⟩ :=
    claim2_parse_params_resolution convTable [.vint 8] [("s", .vint 2)]
      (by decide) (by decide) (by decide) (by decide)
  rw [hd]
  have hc : dget d "c" = some (.val (.vint 8)) := hvals 0 ("c", .vnone) rfl
  have hs : dget d "s" = some (.val (.vint 2)) := hvals 3 ("s", .vint 1) rfl
  have hk : dget d "k" = some (.val (.vint 3)) := hvals 1 ("k", .vint 3) rfl
  refine ⟨?_, ?_, ?_, ?_⟩
  · simp [hkeys, convTable]
  · simp [hc]
  · simp [hs]
  · simp [hk]
